import Mathlib

/-!
Formal verification of the mcp-office Word manipulation engine
(`src/app/main.py` and `src/app/tools/word/...`) against its
natural-language specification (`spec.md`).

The repository ships the tool registrations (`src/app/main.py`) and the
package `__init__` layers; the bodies of the engine functions
(`core/protection.py`, `core/footnotes.py`, `utils/document_utils.py`,
and the `manipulation` tool bodies) are not part of the shipped source
tree, so those operations are modelled from the specification text
(each such definition carries a doc comment saying so).  Everything
taken from `src/app/main.py` is embedded directly from that file.
-/

namespace McpOffice

/-- Error taxonomy of spec section 7: `NotFound`, `StructuralInconsistency`,
`AuthenticationError`, `ValidationError`, `WriteError`, `ConversionError`. -/
inductive WordError where
  | notFound
  | structuralInconsistency
  | authenticationError
  | validationError
  | writeError
  | conversionError
  deriving DecidableEq, Repr

/-! ## ProtectionManager (spec section 4.5)

`core/protection.py` and `protection_tools.py` bodies are not in the
source tree (`protection_tools.py` holds only imports); the manager is
modelled from the spec. -/

/-- Modelled from the spec: password bytes fed to the iterative
password-derivation scheme (`core/protection.py` is missing from the
source tree). -/
def pwBytes (password : String) : List Nat :=
  password.toList.map Char.toNat

/-- Modelled from the spec: one round of the iterative password-hashing
scheme.  The concrete mixing constant is irrelevant to the spec; the
round keeps the previous state so that distinct inputs stay distinct,
matching the spec's assumption that distinct passwords derive distinct
hashes. -/
def hashRound (state : List Nat) : List Nat :=
  (state.foldl (fun a b => (a * 31 + b) % 4294967296) 5381) :: state

/-- Modelled from the spec: derive the protection hash from the supplied
password, the salt and the spin count by iterating the hashing round
`spinCount` times over the salted password bytes (spec section 4.5). -/
def deriveHash (password : String) (salt : List Nat) (spinCount : Nat) : List Nat :=
  hashRound^[spinCount] (salt ++ pwBytes password)

/-- Modelled from the spec: the default spin count is a fixed constant
(spec section 4.5). -/
def defaultSpinCount : Nat := 100000

/-- Protection descriptor of spec section 3:
`{method, salt, derivedHash, spinCount, editingRestriction}`. -/
structure ProtectionDescriptor where
  method : String
  salt : List Nat
  derivedHash : List Nat
  spinCount : Nat
  editingRestriction : String
  deriving DecidableEq, Repr

/-- The part of the structural model the ProtectionManager operates on:
the document content (its ordered blocks) and the optional protection
descriptor stored in the settings part. -/
structure WordDocument where
  blocks : List String
  protection : Option ProtectionDescriptor
  deriving DecidableEq, Repr

/-- Modelled from the spec: `protect(password)` generates a salt (passed
in here, since it is random), derives the hash with the default spin
count and stores `{salt, hash, spinCount, method}` plus the editing
restriction in the settings part (spec section 4.5; the body of
`protect_document` is missing from the source tree). -/
def protect_document (doc : WordDocument) (password : String) (salt : List Nat) :
    WordDocument :=
  { doc with
    protection := some
      { method := "sha512"
        salt := salt
        derivedHash := deriveHash password salt defaultSpinCount
        spinCount := defaultSpinCount
        editingRestriction := "readOnly" } }

/-- Modelled from the spec: `unprotect(password)` recomputes the hash from
the supplied password with the stored salt and spin count; on mismatch it
fails with `AuthenticationError` and the document is unchanged (spec
section 4.5; the body of `unprotect_document` is missing from the source
tree).  The first component of the result is the persisted document after
the call: a failure persists nothing, so it is the input unchanged. -/
def unprotect_document (doc : WordDocument) (password : String) :
    WordDocument × Except WordError Unit :=
  match doc.protection with
  | none => (doc, Except.error WordError.notFound)
  | some pd =>
      if deriveHash password pd.salt pd.spinCount = pd.derivedHash then
        ({ doc with protection := none }, Except.ok ())
      else
        (doc, Except.error WordError.authenticationError)

/-! ## Structural model (spec section 3)

A document is an ordered sequence of blocks; a paragraph has a style
name and text.  Position indices are derived from current order. -/

/-- A paragraph of the structural model: style name and text content
(runs are collapsed to their concatenated text, which is all the
verified operations inspect). -/
structure Para where
  style : String
  text : String
  deriving DecidableEq, Repr

/-! ## AnchorResolver (spec section 4.1)

`find_paragraph_by_text` is imported in `utils/__init__.py` but its body
(`utils/document_utils.py`) is not in the source tree; the resolver is
modelled from the spec. -/

/-- Substring containment on character lists, used by the text matcher. -/
def containsSub (hay needle : List Char) : Bool :=
  match hay with
  | [] => needle.isEmpty
  | c :: rest => needle.isPrefixOf (c :: rest) || containsSub rest needle

/-- Modelled from the spec: whether a paragraph's text matches the target
text under the `matchCase` and `wholeWord` options (spec section 4.1;
the matcher body in `utils/document_utils.py` is missing from the source
tree).  Case-insensitive match lowercases both sides; whole-word match
compares the target against the alphanumeric words of the text. -/
def textMatches (paraText target : String) (matchCase wholeWord : Bool) : Bool :=
  let p := if matchCase then paraText else paraText.toLower
  let t := if matchCase then target else target.toLower
  if wholeWord then
    (p.split (fun c => !c.isAlphanum)).contains t
  else
    containsSub p.toList t.toList

/-- Modelled from the spec: `find_paragraph_by_text` scans paragraphs in
document order and returns the index of the first match, or `none`
(spec section 4.1; the body in `utils/document_utils.py` is missing from
the source tree). -/
def find_paragraph_by_text (doc : List Para) (target : String)
    (matchCase wholeWord : Bool) : Option Nat :=
  match doc with
  | [] => none
  | p :: rest =>
      if textMatches p.text target matchCase wholeWord then some 0
      else (find_paragraph_by_text rest target matchCase wholeWord).map (· + 1)

/-- Modelled from the spec: anchor resolution (spec section 4.1).  An
explicit `paragraphIndex` takes precedence over `targetText`; otherwise
the first text match is used; with no explicit index and no match the
resolution fails with `NotFound`. -/
def resolveAnchor (doc : List Para) (targetText : Option String)
    (matchCase wholeWord : Bool) (paragraphIndex : Option Nat) :
    Except WordError Nat :=
  match paragraphIndex with
  | some i =>
      if i < doc.length then Except.ok i else Except.error WordError.notFound
  | none =>
      match targetText with
      | some t =>
          match find_paragraph_by_text doc t matchCase wholeWord with
          | some i => Except.ok i
          | none => Except.error WordError.notFound
      | none => Except.error WordError.notFound

/-! ## ContentInsertionEngine (spec section 4.2)

The engine bodies (`insert_header_near_text`,
`insert_line_or_paragraph_near_text`, `insert_numbered_list_near_text`
in `utils/document_utils.py`) are missing from the source tree and are
modelled from the spec. -/

/-- Insert one block at the given position index (clamped to the end). -/
def insertBlockAt {α : Type} : List α → Nat → α → List α
  | xs, 0, b => b :: xs
  | [], _ + 1, b => [b]
  | x :: xs, n + 1, b => x :: insertBlockAt xs n b

/-- Insert a run of blocks at the given position index. -/
def insertBlocksAt {α : Type} (xs : List α) (i : Nat) (bs : List α) : List α :=
  xs.take i ++ bs ++ xs.drop i

/-- Modelled from the spec: the formatting context a new paragraph
inherits from the anchor paragraph (spec section 4.2). -/
def inheritedStyle (doc : List Para) (i : Nat) : String :=
  match doc[i]? with
  | some p => p.style
  | none => "Normal"

/-- Modelled from the spec: paragraph/line insertion near an anchor
(spec section 4.2).  The anchor is resolved, the insertion index is the
anchor index for `position = "before"` and anchor index + 1 for
`position = "after"` (any other position is a `ValidationError`, spec
section 7); the new paragraph inherits the anchor's style unless an
explicit style is supplied; the new block's resolved index is
returned. -/
def insert_line_or_paragraph_near_text (doc : List Para)
    (targetText : Option String) (lineText : String) (position : String)
    (lineStyle : Option String) (targetParagraphIndex : Option Nat) :
    Except WordError (List Para × Nat) :=
  match resolveAnchor doc targetText true false targetParagraphIndex with
  | Except.error e => Except.error e
  | Except.ok i =>
      let newPara : Para := { style := lineStyle.getD (inheritedStyle doc i), text := lineText }
      if position = "before" then Except.ok (insertBlockAt doc i newPara, i)
      else if position = "after" then Except.ok (insertBlockAt doc (i + 1) newPara, i + 1)
      else Except.error WordError.validationError

/-- Modelled from the spec: header insertion near an anchor (spec
section 4.2), with the supplied heading style. -/
def insert_header_near_text (doc : List Para) (targetText : Option String)
    (headerTitle : String) (position : String) (headerStyle : String)
    (targetParagraphIndex : Option Nat) : Except WordError (List Para × Nat) :=
  match resolveAnchor doc targetText true false targetParagraphIndex with
  | Except.error e => Except.error e
  | Except.ok i =>
      let newPara : Para := { style := headerStyle, text := headerTitle }
      if position = "before" then Except.ok (insertBlockAt doc i newPara, i)
      else if position = "after" then Except.ok (insertBlockAt doc (i + 1) newPara, i + 1)
      else Except.error WordError.validationError

/-- A numbering definition, keyed by bullet type and indentation level
(spec section 3). -/
structure NumberingDefinition where
  bulletType : String
  indentLevel : Nat
  deriving DecidableEq, Repr

/-- Modelled from the spec: resolve or create the numbering definition
keyed by `(bulletType, indentationLevel)`, reusing an existing matching
definition rather than creating a duplicate (spec sections 3 and 4.2). -/
def resolveNumberingDefinition (defs : List NumberingDefinition)
    (bulletType : String) (level : Nat) : List NumberingDefinition :=
  if { bulletType := bulletType, indentLevel := level } ∈ defs then defs
  else defs ++ [{ bulletType := bulletType, indentLevel := level }]

/-- Modelled from the spec: list insertion near an anchor (spec
section 4.2).  An indentation level outside `[1, 5]` is a
`ValidationError` and nothing is inserted; otherwise the anchor is
resolved, the numbering definition is resolved or created, the items are
inserted as list paragraphs and the first new block's resolved index is
returned. -/
def insert_numbered_list_near_text (doc : List Para)
    (defs : List NumberingDefinition) (targetText : Option String)
    (listItems : List String) (position : String)
    (targetParagraphIndex : Option Nat) (bulletType : String)
    (indentLevel : Nat) :
    Except WordError (List Para × List NumberingDefinition × Nat) :=
  if indentLevel < 1 ∨ 5 < indentLevel then Except.error WordError.validationError
  else
    match resolveAnchor doc targetText true false targetParagraphIndex with
    | Except.error e => Except.error e
    | Except.ok i =>
        let defs' := resolveNumberingDefinition defs bulletType indentLevel
        let style := if bulletType = "bullet" then "List Bullet" else "List Number"
        let items := listItems.map (fun s => { style := style, text := s : Para })
        if position = "before" then Except.ok (insertBlocksAt doc i items, defs', i)
        else if position = "after" then
          Except.ok (insertBlocksAt doc (i + 1) items, defs', i + 1)
        else Except.error WordError.validationError

/-! ## Public MCP tools (`src/app/main.py`)

The tool registrations in `register_word_manipulation_tools` are in the
source tree; each is a pass-through to an engine operation.  The on-disk
document named by `filename` is passed explicitly. -/

/-- Argument record of the MCP tool `word_insert_header_near_text`
(`src/app/main.py` lines 156-160), with the registered defaults:
`target_text = None`, `header_title = ""`, `position = 'after'`,
`header_style = 'Heading 1'`, `target_paragraph_index = None`. -/
structure InsertHeaderNearTextArgs where
  filename : String
  target_text : Option String := none
  header_title : String := ""
  position : String := "after"
  header_style : String := "Heading 1"
  target_paragraph_index : Option Nat := none

/-- Argument record of the MCP tool `word_insert_paragraph_near_text`
(`src/app/main.py` lines 162-166), with the registered defaults. -/
structure InsertParagraphNearTextArgs where
  filename : String
  target_text : Option String := none
  line_text : String := ""
  position : String := "after"
  line_style : Option String := none
  target_paragraph_index : Option Nat := none

/-- Argument record of the MCP tool `word_insert_list_near_text`
(`src/app/main.py` lines 168-172), with the registered defaults.  Note
the signature has no indentation-level parameter. -/
structure InsertListNearTextArgs where
  filename : String
  target_text : Option String := none
  list_items : Option (List String) := none
  position : String := "after"
  target_paragraph_index : Option Nat := none
  bullet_type : String := "bullet"

/-- Parameter names of the public MCP tool `word_insert_list_near_text`,
exactly as registered in `src/app/main.py` (lines 168-172). -/
def wordInsertListNearTextParams : List String :=
  ["filename", "target_text", "list_items", "position",
   "target_paragraph_index", "bullet_type"]

/-- The MCP tool `word_insert_header_near_text` (`src/app/main.py`
lines 156-160): a pass-through to the engine operation. -/
def word_insert_header_near_text (a : InsertHeaderNearTextArgs)
    (doc : List Para) : Except WordError (List Para × Nat) :=
  insert_header_near_text doc a.target_text a.header_title a.position
    a.header_style a.target_paragraph_index

/-- The MCP tool `word_insert_paragraph_near_text` (`src/app/main.py`
lines 162-166): a pass-through to the engine operation. -/
def word_insert_paragraph_near_text (a : InsertParagraphNearTextArgs)
    (doc : List Para) : Except WordError (List Para × Nat) :=
  insert_line_or_paragraph_near_text doc a.target_text a.line_text a.position
    a.line_style a.target_paragraph_index

/-- The fixed indentation level the list tool hands to the engine: the
tool signature in `src/app/main.py` exposes no level parameter, so every
call uses this default. -/
def defaultIndentLevel : Nat := 1

/-- The MCP tool `word_insert_list_near_text` (`src/app/main.py`
lines 168-172): a pass-through to the engine operation at the fixed
default indentation level. -/
def word_insert_list_near_text (a : InsertListNearTextArgs)
    (doc : List Para) (defs : List NumberingDefinition) :
    Except WordError (List Para × List NumberingDefinition × Nat) :=
  insert_numbered_list_near_text doc defs a.target_text
    (a.list_items.getD []) a.position a.target_paragraph_index
    a.bullet_type defaultIndentLevel

/-! ## FootnoteManager (spec section 4.4)

`core/footnotes.py` and the `footnote_tools.py` bodies are not in the
source tree (`footnote_tools.py` holds only imports); the manager is
modelled from the spec. -/

/-- A footnote or endnote content entry: id and content text (spec
section 3). -/
structure NoteEntry where
  id : Nat
  text : String
  deriving DecidableEq, Repr

/-- The kind of a note reference run. -/
inductive NoteKind where
  | footnote
  | endnote
  deriving DecidableEq, Repr

/-- A note reference run inside a paragraph: its kind and the id it
references (spec section 3). -/
structure NoteRef where
  kind : NoteKind
  id : Nat
  deriving DecidableEq, Repr

/-- A paragraph together with the note reference runs it carries, in
run order. -/
structure NotePara where
  text : String
  refs : List NoteRef
  deriving DecidableEq, Repr

/-- The parts of the package the FootnoteManager operates on: the
paragraphs, the footnote part, the endnote part and whether the
relationships part lists the footnote part (spec sections 3 and 4.4). -/
structure FootnoteDoc where
  paragraphs : List NotePara
  footnotes : List NoteEntry
  endnotes : List NoteEntry
  relsListFootnotePart : Bool
  deriving DecidableEq, Repr

/-- Modelled from the spec: scan-to-find-max id allocation — the current
maximum id in a note part, `0` when the part is empty (spec sections 4.4
and 9). -/
def maxNoteId (entries : List NoteEntry) : Nat :=
  (entries.map (fun e => e.id)).foldl Nat.max 0

/-- Modelled from the spec: `addFootnote(paragraphIndex, text)` (spec
section 4.4; the body in `core/footnotes.py` is missing from the source
tree).  Fails with `StructuralInconsistency` when the relationships
entry and the footnote content part disagree; fails with `NotFound`
when the paragraph index is out of range; otherwise allocates
`max + 1` (`1` when the part is empty), appends the reference run to
the target paragraph and the content entry to the footnote part,
ensures the relationships entry, and returns the allocated id. -/
def add_footnote (doc : FootnoteDoc) (paragraphIndex : Nat) (text : String) :
    Except WordError (FootnoteDoc × Nat) :=
  if doc.relsListFootnotePart ≠ !doc.footnotes.isEmpty then
    Except.error WordError.structuralInconsistency
  else
    match doc.paragraphs[paragraphIndex]? with
    | none => Except.error WordError.notFound
    | some p =>
        let newId := maxNoteId doc.footnotes + 1
        let p' : NotePara :=
          { p with refs := p.refs ++ [{ kind := NoteKind.footnote, id := newId }] }
        Except.ok
          ({ doc with
              paragraphs := doc.paragraphs.set paragraphIndex p'
              footnotes := doc.footnotes ++ [{ id := newId, text := text }]
              relsListFootnotePart := true },
           newId)

/-- `N` sequential `addFootnote` calls against the same paragraph. -/
def addFootnotesSeq (doc : FootnoteDoc) (paragraphIndex : Nat) :
    Nat → Except WordError FootnoteDoc
  | 0 => Except.ok doc
  | n + 1 =>
      match addFootnotesSeq doc paragraphIndex n with
      | Except.error e => Except.error e
      | Except.ok d =>
          match add_footnote d paragraphIndex "note" with
          | Except.error e => Except.error e
          | Except.ok (d', _) => Except.ok d'

/-- Modelled from the spec: structural consistency of the footnote part
— every footnote reference run's id has a matching content entry (spec
section 3). -/
def footnoteRefsConsistent (doc : FootnoteDoc) : Bool :=
  doc.paragraphs.all (fun p =>
    p.refs.all (fun r =>
      match r.kind with
      | NoteKind.footnote => doc.footnotes.any (fun e => e.id == r.id)
      | NoteKind.endnote => true))

/-- Renumber note entries consecutively starting at `base + 1`,
preserving their relative order and their texts. -/
def renumberFrom (base : Nat) : List NoteEntry → List NoteEntry
  | [] => []
  | e :: rest => { id := base + 1, text := e.text } :: renumberFrom (base + 1) rest

/-- Modelled from the spec: rewrite one reference run during
footnote-to-endnote conversion — footnote references become endnote
references with the remapped id, endnote references are untouched. -/
def convertRef (remap : Nat → Nat) (r : NoteRef) : NoteRef :=
  match r.kind with
  | NoteKind.footnote => { kind := NoteKind.endnote, id := remap r.id }
  | NoteKind.endnote => r

/-- Modelled from the spec: `convertFootnotesToEndnotes` (spec
section 4.4; the body in `core/footnotes.py` is missing from the source
tree).  On a structurally consistent document it remaps every footnote
id into the endnote numbering space preserving relative order, rewrites
every reference run in place and removes the original footnote entries;
on failure it commits nothing — the first component of the result is
the persisted document, the input unchanged (all-or-nothing via a
staged copy). -/
def convert_footnotes_to_endnotes (doc : FootnoteDoc) :
    FootnoteDoc × Except WordError Unit :=
  if footnoteRefsConsistent doc then
    let base := maxNoteId doc.endnotes
    let remap := fun i =>
      base + 1 + (doc.footnotes.map (fun e => e.id)).indexOf i
    ({ doc with
        paragraphs := doc.paragraphs.map (fun p =>
          { p with refs := p.refs.map (convertRef remap) })
        footnotes := []
        endnotes := doc.endnotes ++ renumberFrom base doc.footnotes
        relsListFootnotePart := false },
     Except.ok ())
  else (doc, Except.error WordError.structuralInconsistency)

/-! ## BlockReplacer (spec section 4.3)

`replace_paragraph_block_below_header` is imported in
`content_tools.py` but its body (`utils/document_utils.py`) is not in
the source tree; it is modelled from the spec. -/

/-- Parse a nonnegative decimal numeral from the remaining characters,
accumulating into `acc`; any non-digit character fails the parse. -/
def parseNatDigits : List Char → Nat → Option Nat
  | [], acc => some acc
  | c :: rest, acc =>
      if c.isDigit then parseNatDigits rest (acc * 10 + (c.toNat - 48))
      else none

/-- Heading level of a style name: `"Heading k"` has level `k`; any
other style is not a heading. -/
def headingLevelOfStyle (style : String) : Option Nat :=
  let cs := style.toList
  if cs.take 8 = "Heading ".toList ∧ 8 < cs.length then
    parseNatDigits (cs.drop 8) 0
  else none

/-- Whether a paragraph is a heading of equal-or-higher rank than level
`lvl` (its level is at most `lvl`). -/
def isHeadingAtMost (p : Para) (lvl : Nat) : Bool :=
  match headingLevelOfStyle p.style with
  | some l => decide (l ≤ lvl)
  | none => false

/-- Whether a paragraph is a heading whose text matches the header
text. -/
def isMatchingHeader (p : Para) (headerText : String) : Bool :=
  (headingLevelOfStyle p.style).isSome && p.text == headerText

/-- Modelled from the spec: locate the heading paragraph matched by the
header text — first match in document order (spec sections 4.1
and 4.3). -/
def findHeaderIndex (doc : List Para) (headerText : String) : Option Nat :=
  match doc with
  | [] => none
  | p :: rest =>
      if isMatchingHeader p headerText then some 0
      else (findHeaderIndex rest headerText).map (· + 1)

/-- Modelled from the spec: header-scoped replacement (spec
section 4.3; the body of `replace_paragraph_block_below_header` in
`utils/document_utils.py` is missing from the source tree).  Locates
the heading by text (`NotFound` when absent), deletes every following
block until the next heading of equal-or-higher level or document end,
and inserts the replacement content in the deleted span's place. -/
def replace_paragraph_block_below_header (doc : List Para)
    (headerText : String) (newContent : List Para) :
    Except WordError (List Para) :=
  match findHeaderIndex doc headerText with
  | none => Except.error WordError.notFound
  | some i =>
      let lvl :=
        match doc[i]? with
        | some p => (headingLevelOfStyle p.style).getD 0
        | none => 0
      Except.ok (doc.take (i + 1) ++ newContent
        ++ (doc.drop (i + 1)).dropWhile (fun q => !(isHeadingAtMost q lvl)))

/-! ## Operation boundary (spec section 7, `src/app/main.py` lines 85-101) -/

/-- The MCP tool `create_word_from_markdown` (`src/app/main.py` lines
85-101).  The markdown-to-Word Document Builder is an external
collaborator (spec section 6) and is a parameter; a raised exception is
an `Except.error` carrying the exception text.  The body catches any
error and returns the descriptive message, exactly as the `try/except`
in the source. -/
def create_word_document (markdown_to_word : String → Except String String)
    (markdown_content : String) : String :=
  match markdown_to_word markdown_content with
  | Except.ok result => result
  | Except.error e => "Error creating Word document: " ++ e

/-- Modelled from the spec: the propagation policy of spec section 7 —
every operation catches any error at its boundary and returns a
descriptive failure result (the word manipulation tool bodies under
`manipulation/` are missing from the source tree). -/
def operationBoundary {α : Type} (describe : WordError → String)
    (op : α → Except WordError String) (input : α) : String :=
  match op input with
  | Except.ok result => result
  | Except.error e => describe e

/-! ## Theorems -/

theorem pwBytes_injective : Function.Injective pwBytes := by
  intro p q h
  have h1 : p.toList = q.toList := by
    have : Function.Injective Char.toNat := by
      intro a b hab
      exact Char.ext (UInt32.ext hab)
    exact List.map_injective_iff.mpr this h
  cases p; cases q
  exact congrArg String.mk h1

theorem hashRound_injective : Function.Injective hashRound := by
  intro a b h
  exact (List.cons.injEq _ _ _ _ ▸ h).2

theorem deriveHash_injective (salt : List Nat) (n : Nat) :
    Function.Injective (fun p => deriveHash p salt n) := by
  intro p q h
  have h1 := (hashRound_injective.iterate n) h
  exact pwBytes_injective (List.append_cancel_left h1)

theorem find_paragraph_by_text_some (doc : List Para) (t : String)
    (mc ww : Bool) :
    ∀ i, find_paragraph_by_text doc t mc ww = some i →
      (∃ p, doc[i]? = some p ∧ textMatches p.text t mc ww = true)
      ∧ ∀ j, j < i → ∀ q, doc[j]? = some q →
          textMatches q.text t mc ww = false := by
  induction doc with
  | nil => intro i h; simp [find_paragraph_by_text] at h
  | cons p rest ih =>
      intro i h
      cases htm : textMatches p.text t mc ww with
      | true =>
          have h0 : i = 0 := by
            simp [find_paragraph_by_text, htm] at h
            omega
          subst h0
          refine ⟨⟨p, by simp, htm⟩, ?_⟩
          intro j hj
          omega
      | false =>
          simp [find_paragraph_by_text, htm, Option.map_eq_some'] at h
          obtain ⟨k, hk, hki⟩ := h
          subst hki
          obtain ⟨⟨q, hq, hqm⟩, hbefore⟩ := ih k hk
          refine ⟨⟨q, by simpa using hq, hqm⟩, ?_⟩
          intro j hj r hr
          cases j with
          | zero =>
              have hpr : p = r := by simpa using hr
              subst hpr
              exact htm
          | succ j' =>
              simp only [List.getElem?_cons_succ] at hr
              exact hbefore j' (by omega) r hr

theorem find_paragraph_by_text_none (doc : List Para) (t : String)
    (mc ww : Bool) (h : ∀ p ∈ doc, textMatches p.text t mc ww = false) :
    find_paragraph_by_text doc t mc ww = none := by
  induction doc with
  | nil => rfl
  | cons p rest ih =>
      have hp := h p (List.mem_cons_self p rest)
      simp only [find_paragraph_by_text, hp]
      simp [ih (fun q hq => h q (List.mem_cons_of_mem p hq))]

theorem resolveAnchor_ok_lt (doc : List Para) (tt : Option String)
    (mc ww : Bool) (pidx : Option Nat) (i : Nat)
    (h : resolveAnchor doc tt mc ww pidx = Except.ok i) : i < doc.length := by
  cases pidx with
  | some j =>
      by_cases hj : j < doc.length
      · have hji : j = i := by simp [resolveAnchor, hj] at h; omega
        subst hji
        exact hj
      · simp [resolveAnchor, hj] at h
  | none =>
      cases tt with
      | none => simp [resolveAnchor] at h
      | some t =>
          cases hf : find_paragraph_by_text doc t mc ww with
          | none => simp [resolveAnchor, hf] at h
          | some k =>
              have hki : k = i := by simp [resolveAnchor, hf] at h; omega
              subst hki
              obtain ⟨⟨p, hp, _⟩, _⟩ :=
                find_paragraph_by_text_some doc t mc ww k hf
              exact (List.getElem?_eq_some.mp hp).1

theorem insertBlockAt_get_self {α : Type} (xs : List α) (i : Nat) (b : α)
    (h : i ≤ xs.length) : (insertBlockAt xs i b)[i]? = some b := by
  induction xs generalizing i with
  | nil =>
      have : i = 0 := Nat.le_zero.mp h
      subst this
      rfl
  | cons x xs ih =>
      cases i with
      | zero => rfl
      | succ n =>
          simp only [insertBlockAt, List.getElem?_cons_succ]
          exact ih n (Nat.le_of_succ_le_succ h)

theorem insertBlockAt_get_lt {α : Type} (xs : List α) (i k : Nat) (b : α)
    (hlen : i ≤ xs.length) (h : k < i) :
    (insertBlockAt xs i b)[k]? = xs[k]? := by
  induction xs generalizing i k with
  | nil => simp at hlen; omega
  | cons x xs ih =>
      cases i with
      | zero => omega
      | succ n =>
          cases k with
          | zero => simp [insertBlockAt]
          | succ m =>
              simp only [insertBlockAt, List.getElem?_cons_succ]
              exact ih n m (by simpa using hlen) (by omega)

theorem insertBlockAt_get_ge {α : Type} (xs : List α) (i k : Nat) (b : α)
    (h : i ≤ k) : (insertBlockAt xs i b)[k + 1]? = xs[k]? := by
  induction xs generalizing i k with
  | nil =>
      cases i with
      | zero => simp [insertBlockAt]
      | succ n =>
          cases k with
          | zero => omega
          | succ m => simp [insertBlockAt]
  | cons x xs ih =>
      cases i with
      | zero => simp [insertBlockAt]
      | succ n =>
          cases k with
          | zero => omega
          | succ m =>
              simp only [insertBlockAt, List.getElem?_cons_succ]
              exact ih n m (by omega)

/-- Claim C1: for every document `d` and every password `p'` different
from the password `d` was protected with, `unprotect` fails with
`AuthenticationError` and the persisted document — content and stored
protection descriptor (salt, hash, spin count) — is exactly the
protected document, unchanged. -/
theorem C1_unprotect_wrong_password (d : WordDocument) (p p' : String)
    (salt : List Nat) (h : p' ≠ p) :
    (unprotect_document (protect_document d p salt) p').2
        = Except.error WordError.authenticationError
    ∧ (unprotect_document (protect_document d p salt) p').1
        = protect_document d p salt := by
  have hne : deriveHash p' salt defaultSpinCount
      ≠ deriveHash p salt defaultSpinCount :=
    fun he => h (deriveHash_injective salt defaultSpinCount he)
  constructor <;> simp [unprotect_document, protect_document, hne]

theorem C1_witness :
    (unprotect_document
        (protect_document ⟨["body"], none⟩ "pw" [7, 7]) "wrong").2
      = Except.error WordError.authenticationError
    ∧ (unprotect_document
        (protect_document ⟨["body"], none⟩ "pw" [7, 7]) "wrong").1
      = protect_document ⟨["body"], none⟩ "pw" [7, 7] :=
  C1_unprotect_wrong_password ⟨["body"], none⟩ "pw" "wrong" [7, 7] (by decide)

/-- Claim C7: protecting a document with a password and then
unprotecting with the same password succeeds and yields a document whose
content equals the original, with the protection descriptor cleared. -/
theorem C7_protection_round_trip (d : WordDocument) (pw : String)
    (salt : List Nat) :
    (unprotect_document (protect_document d pw salt) pw).2 = Except.ok ()
    ∧ (unprotect_document (protect_document d pw salt) pw).1.blocks = d.blocks
    ∧ (unprotect_document (protect_document d pw salt) pw).1.protection
        = none := by
  refine ⟨?_, ?_, ?_⟩ <;> simp [unprotect_document, protect_document]

/-- Claim C4: an explicit paragraph index takes precedence over the
target text; with only target text the resolver returns the first match
in document order (every earlier paragraph fails the match); with no
explicit index and no matching paragraph the resolution fails with
`NotFound`. -/
theorem C4_anchor_resolution (doc : List Para) (t : String) (mc ww : Bool) :
    (∀ i, i < doc.length →
      resolveAnchor doc (some t) mc ww (some i) = Except.ok i)
    ∧ (∀ i, find_paragraph_by_text doc t mc ww = some i →
        resolveAnchor doc (some t) mc ww none = Except.ok i
        ∧ (∃ p, doc[i]? = some p ∧ textMatches p.text t mc ww = true)
        ∧ ∀ j, j < i → ∀ q, doc[j]? = some q →
            textMatches q.text t mc ww = false)
    ∧ ((∀ p ∈ doc, textMatches p.text t mc ww = false) →
        resolveAnchor doc (some t) mc ww none
          = Except.error WordError.notFound) := by
  refine ⟨?_, ?_, ?_⟩
  · intro i hi
    simp [resolveAnchor, hi]
  · intro i hf
    obtain ⟨hex, hfirst⟩ := find_paragraph_by_text_some doc t mc ww i hf
    exact ⟨by simp [resolveAnchor, hf], hex, hfirst⟩
  · intro hall
    simp [resolveAnchor, find_paragraph_by_text_none doc t mc ww hall]

theorem C4_witness :
    resolveAnchor [⟨"Normal", "Intro"⟩, ⟨"Normal", "Body"⟩] (some "Body")
        true false (some 0) = Except.ok 0
    ∧ resolveAnchor [⟨"Normal", "Intro"⟩, ⟨"Normal", "Body"⟩] (some "Body")
        true false none = Except.ok 1
    ∧ resolveAnchor [⟨"Normal", "Intro"⟩] (some "zzz") true false none
        = Except.error WordError.notFound := by
  have h1 := C4_anchor_resolution [⟨"Normal", "Intro"⟩, ⟨"Normal", "Body"⟩]
    "Body" true false
  have h2 := C4_anchor_resolution [⟨"Normal", "Intro"⟩] "zzz" true false
  exact ⟨h1.1 0 (by decide), (h1.2.1 1 (by decide)).1, h2.2.2 (by decide)⟩

/-- Claim C2: for an anchor resolved at index `i`, insertion with
`position = "after"` places the new paragraph at index `i + 1`, moves no
block at an index at most `i`, and shifts each later block by one;
insertion with `position = "before"` places the new paragraph at index
`i` and shifts the anchor and every subsequent block by one; both return
the new block's resolved index. -/
theorem C2_insertion_index_law (doc : List Para) (tt : Option String)
    (pidx : Option Nat) (txt : String) (sty : Option String) (i : Nat)
    (hres : resolveAnchor doc tt true false pidx = Except.ok i) :
    insert_line_or_paragraph_near_text doc tt txt "after" sty pidx
        = Except.ok
            (insertBlockAt doc (i + 1)
              { style := sty.getD (inheritedStyle doc i), text := txt },
             i + 1)
    ∧ insert_line_or_paragraph_near_text doc tt txt "before" sty pidx
        = Except.ok
            (insertBlockAt doc i
              { style := sty.getD (inheritedStyle doc i), text := txt },
             i)
    ∧ (∀ b : Para, (insertBlockAt doc (i + 1) b)[i + 1]? = some b)
    ∧ (∀ b : Para, ∀ k, k ≤ i → (insertBlockAt doc (i + 1) b)[k]? = doc[k]?)
    ∧ (∀ b : Para, ∀ k, i < k → (insertBlockAt doc (i + 1) b)[k + 1]? = doc[k]?)
    ∧ (∀ b : Para, (insertBlockAt doc i b)[i]? = some b)
    ∧ (∀ b : Para, ∀ k, k < i → (insertBlockAt doc i b)[k]? = doc[k]?)
    ∧ (∀ b : Para, ∀ k, i ≤ k → (insertBlockAt doc i b)[k + 1]? = doc[k]?) := by
  have hi : i < doc.length := resolveAnchor_ok_lt doc tt true false pidx i hres
  refine ⟨?_, ?_, ?_, ?_, ?_, ?_, ?_, ?_⟩
  · simp [insert_line_or_paragraph_near_text, hres]
  · simp [insert_line_or_paragraph_near_text, hres]
  · intro b; exact insertBlockAt_get_self doc (i + 1) b (by omega)
  · intro b k hk; exact insertBlockAt_get_lt doc (i + 1) k b (by omega) (by omega)
  · intro b k hk; exact insertBlockAt_get_ge doc (i + 1) k b (by omega)
  · intro b; exact insertBlockAt_get_self doc i b (by omega)
  · intro b k hk; exact insertBlockAt_get_lt doc i k b (by omega) hk
  · intro b k hk; exact insertBlockAt_get_ge doc i k b hk

theorem C2_witness :
    insert_line_or_paragraph_near_text
        [⟨"Normal", "Intro"⟩, ⟨"Normal", "Body"⟩, ⟨"Normal", "Conclusion"⟩]
        (some "Body") "New" "before" none none
      = Except.ok
          ([⟨"Normal", "Intro"⟩, ⟨"Normal", "New"⟩, ⟨"Normal", "Body"⟩,
            ⟨"Normal", "Conclusion"⟩], 1)
    ∧ insert_line_or_paragraph_near_text
        [⟨"Normal", "Intro"⟩, ⟨"Normal", "Body"⟩, ⟨"Normal", "Conclusion"⟩]
        (some "Body") "New" "after" none none
      = Except.ok
          ([⟨"Normal", "Intro"⟩, ⟨"Normal", "Body"⟩, ⟨"Normal", "New"⟩,
            ⟨"Normal", "Conclusion"⟩], 2) := by
  have h := C2_insertion_index_law
    [⟨"Normal", "Intro"⟩, ⟨"Normal", "Body"⟩, ⟨"Normal", "Conclusion"⟩]
    (some "Body") none "New" none 1 rfl
  exact ⟨h.2.1, h.1⟩

/-- Claim C10: for each of the three insertion tools, a call without a
`position` argument (so the registered default fills it) returns the
same result as the same call with `position = "after"`: the `position`
parameter of each tool defaults to `"after"` in `src/app/main.py`. -/
theorem C10_position_defaults_to_after :
    (∀ f t h s i doc,
      word_insert_header_near_text
          { filename := f, target_text := t, header_title := h,
            header_style := s, target_paragraph_index := i } doc
        = word_insert_header_near_text
            { filename := f, target_text := t, header_title := h,
              position := "after", header_style := s,
              target_paragraph_index := i } doc)
    ∧ (∀ f t l s i doc,
      word_insert_paragraph_near_text
          { filename := f, target_text := t, line_text := l,
            line_style := s, target_paragraph_index := i } doc
        = word_insert_paragraph_near_text
            { filename := f, target_text := t, line_text := l,
              position := "after", line_style := s,
              target_paragraph_index := i } doc)
    ∧ (∀ f t l i bt doc defs,
      word_insert_list_near_text
          { filename := f, target_text := t, list_items := l,
            target_paragraph_index := i, bullet_type := bt } doc defs
        = word_insert_list_near_text
            { filename := f, target_text := t, list_items := l,
              position := "after", target_paragraph_index := i,
              bullet_type := bt } doc defs) :=
  ⟨fun _ _ _ _ _ _ => rfl, fun _ _ _ _ _ _ => rfl, fun _ _ _ _ _ _ _ => rfl⟩

/-- Claim C8: any error raised inside an operation is caught at the
operation boundary and turned into a descriptive failure result — the
public operation is a total function into result strings, so no
exception reaches the caller.  Stated for the `create_word_from_markdown`
tool embedded from `src/app/main.py` (lines 85-101) and for the generic
operation boundary of the word manipulation tools. -/
theorem C8_errors_caught_at_boundary :
    (∀ (builder : String → Except String String) (md r : String),
        builder md = Except.ok r → create_word_document builder md = r)
    ∧ (∀ (builder : String → Except String String) (md e : String),
        builder md = Except.error e →
          create_word_document builder md
            = "Error creating Word document: " ++ e)
    ∧ (∀ (α : Type) (describe : WordError → String)
        (op : α → Except WordError String) (x : α),
        (∀ r, op x = Except.ok r → operationBoundary describe op x = r)
        ∧ (∀ e, op x = Except.error e →
            operationBoundary describe op x = describe e)) := by
  refine ⟨?_, ?_, ?_⟩
  · intro builder md r hb
    simp [create_word_document, hb]
  · intro builder md e hb
    simp [create_word_document, hb]
  · intro α describe op x
    constructor
    · intro r hb
      simp [operationBoundary, hb]
    · intro e hb
      simp [operationBoundary, hb]

theorem C8_witness :
    create_word_document (fun _ => Except.error "disk full") "# Title"
        = "Error creating Word document: disk full"
    ∧ create_word_document (fun _ => Except.ok "uploaded") "# Title"
        = "uploaded" :=
  ⟨C8_errors_caught_at_boundary.2.1 (fun _ => Except.error "disk full")
      "# Title" "disk full" rfl,
   C8_errors_caught_at_boundary.1 (fun _ => Except.ok "uploaded")
      "# Title" "uploaded" rfl⟩

/-- Claim C9 counterexample: the public list-insertion tool
`word_insert_list_near_text` (`src/app/main.py` lines 168-172) has no
indentation-level parameter — the level cannot be supplied through the
public interface, and every call reaches the engine at the fixed
default level. -/
theorem C9_counterexample_no_level_parameter :
    wordInsertListNearTextParams.contains "indentation_level" = false
    ∧ word_insert_list_near_text { filename := "doc.docx" }
          [⟨"Normal", "A"⟩] []
        = insert_numbered_list_near_text [⟨"Normal", "A"⟩] [] none []
            "after" none "bullet" defaultIndentLevel :=
  ⟨by decide, rfl⟩

/-- Claim C9 (amended): the engine's list insertion fails with
`ValidationError` (producing no document) for an indentation level
outside `[1, 5]` and accepts any level inside `[1, 5]`; the public tool
`word_insert_list_near_text` does not expose the level — it always
calls the engine at the fixed default level 1. -/
theorem C9_indentation_level_validation (doc : List Para)
    (defs : List NumberingDefinition) (tt : Option String)
    (items : List String) (pos : String) (pidx : Option Nat)
    (bt : String) (lvl : Nat) :
    ((lvl < 1 ∨ 5 < lvl) →
      insert_numbered_list_near_text doc defs tt items pos pidx bt lvl
        = Except.error WordError.validationError)
    ∧ (1 ≤ lvl → lvl ≤ 5 →
        ∀ i, resolveAnchor doc tt true false pidx = Except.ok i →
          insert_numbered_list_near_text doc defs tt items "after" pidx bt lvl
            = Except.ok
                (insertBlocksAt doc (i + 1)
                  (items.map (fun s =>
                    { style := if bt = "bullet"
                        then "List Bullet" else "List Number",
                      text := s })),
                 resolveNumberingDefinition defs bt lvl, i + 1))
    ∧ (∀ a : InsertListNearTextArgs, ∀ d ds,
        word_insert_list_near_text a d ds
          = insert_numbered_list_near_text d ds a.target_text
              (a.list_items.getD []) a.position a.target_paragraph_index
              a.bullet_type 1) := by
  refine ⟨?_, ?_, fun _ _ _ => rfl⟩
  · intro hout
    simp [insert_numbered_list_near_text, hout]
    intro h0 h5x
    exfalso
    omega
  · intro h1 h5 i hres
    simp [insert_numbered_list_near_text, hres]
    omega

theorem C9_witness :
    insert_numbered_list_near_text [⟨"Normal", "A"⟩] [] none ["x"]
        "after" (some 0) "bullet" 7
      = Except.error WordError.validationError
    ∧ insert_numbered_list_near_text [⟨"Normal", "A"⟩] [] none ["x"]
        "after" (some 0) "bullet" 2
      = Except.ok
          (insertBlocksAt [⟨"Normal", "A"⟩] 1 [⟨"List Bullet", "x"⟩],
           resolveNumberingDefinition [] "bullet" 2, 1) := by
  have h7 := C9_indentation_level_validation [⟨"Normal", "A"⟩] [] none
    ["x"] "after" (some 0) "bullet" 7
  have h2 := C9_indentation_level_validation [⟨"Normal", "A"⟩] [] none
    ["x"] "after" (some 0) "bullet" 2
  refine ⟨h7.1 (by omega), ?_⟩
  have := h2.2.1 (by omega) (by omega) 0 rfl
  simpa using this

theorem foldl_max_range' (k a : Nat) :
    (List.range' (a + 1) k).foldl Nat.max a = a + k := by
  induction k generalizing a with
  | zero => simp
  | succ m ih =>
      rw [List.range'_succ]
      simp only [List.foldl_cons]
      have h1 : Nat.max a (a + 1) = a + 1 := Nat.max_eq_right (Nat.le_succ a)
      rw [h1, ih (a + 1)]
      omega

theorem addFootnotesSeq_ok (doc : FootnoteDoc) (pIdx : Nat)
    (hrels : doc.relsListFootnotePart = false)
    (hempty : doc.footnotes = [])
    (hp : pIdx < doc.paragraphs.length) :
    ∀ n, ∃ d, addFootnotesSeq doc pIdx n = Except.ok d
      ∧ d.footnotes.map (fun e => e.id) = List.range' 1 n
      ∧ d.paragraphs.length = doc.paragraphs.length
      ∧ d.relsListFootnotePart = !d.footnotes.isEmpty := by
  intro n
  induction n with
  | zero =>
      exact ⟨doc, rfl, by simp [hempty], rfl, by simp [hrels, hempty]⟩
  | succ m ih =>
      obtain ⟨d, hseq, hids, hlen, hcons⟩ := ih
      have hp' : pIdx < d.paragraphs.length := by omega
      have hpget : d.paragraphs[pIdx]? = some d.paragraphs[pIdx] :=
        List.getElem?_eq_getElem hp'
      have hmax : maxNoteId d.footnotes = m := by
        unfold maxNoteId
        rw [hids]
        simpa using foldl_max_range' m 0
      have hne : ¬(d.relsListFootnotePart ≠ !d.footnotes.isEmpty) := by
        simp [hcons]
      have hstep : add_footnote d pIdx "note"
          = Except.ok
              ({ d with
                  paragraphs := d.paragraphs.set pIdx
                    { d.paragraphs[pIdx] with
                        refs := d.paragraphs[pIdx].refs
                          ++ [{ kind := NoteKind.footnote, id := m + 1 }] }
                  footnotes := d.footnotes ++ [{ id := m + 1, text := "note" }]
                  relsListFootnotePart := true },
               m + 1) := by
        simp only [add_footnote, if_neg hne, hpget, hmax]
      refine ⟨{ d with
          paragraphs := d.paragraphs.set pIdx
            { d.paragraphs[pIdx] with
                refs := d.paragraphs[pIdx].refs
                  ++ [{ kind := NoteKind.footnote, id := m + 1 }] }
          footnotes := d.footnotes ++ [{ id := m + 1, text := "note" }]
          relsListFootnotePart := true }, ?_, ?_, ?_, ?_⟩
      · simp only [addFootnotesSeq, hseq, hstep]
      · simp [hids, List.range'_concat, Nat.add_comm]
      · simp [hlen]
      · simp

/-- Claim C3: `addFootnote` allocates id `max + 1` over the ids present
in the footnote part (`1` when that part is empty); after `N`
sequential calls on a document with no prior footnotes the resulting
ids are exactly `1..N`, strictly increasing and pairwise distinct. -/
theorem C3_footnote_id_monotonicity (doc : FootnoteDoc) (pIdx n : Nat)
    (hrels : doc.relsListFootnotePart = false)
    (hempty : doc.footnotes = [])
    (hp : pIdx < doc.paragraphs.length) :
    (∀ (d : FootnoteDoc) (j : Nat) (t : String) (d' : FootnoteDoc) (k : Nat),
        add_footnote d j t = Except.ok (d', k) →
          k = maxNoteId d.footnotes + 1
          ∧ (d.footnotes = [] → k = 1)
          ∧ d'.footnotes.map (fun e => e.id)
              = d.footnotes.map (fun e => e.id) ++ [k])
    ∧ (addFootnotesSeq doc pIdx n).map
          (fun d => d.footnotes.map (fun e => e.id))
        = Except.ok (List.range' 1 n)
    ∧ List.Chain' (· < ·) (List.range' 1 n)
    ∧ (List.range' 1 n).Nodup := by
  refine ⟨?_, ?_, ?_, ?_⟩
  · intro d j t d' k h
    unfold add_footnote at h
    by_cases hc : d.relsListFootnotePart ≠ !d.footnotes.isEmpty
    · rw [if_pos hc] at h
      exact absurd h (by simp)
    · rw [if_neg hc] at h
      cases hg : d.paragraphs[j]? with
      | none =>
          rw [hg] at h
          exact absurd h (by simp)
      | some p =>
          simp only [hg, Except.ok.injEq, Prod.mk.injEq] at h
          obtain ⟨hd', hk⟩ := h
          subst hd'
          subst hk
          refine ⟨rfl, ?_, by simp⟩
          intro he
          simp [maxNoteId, he]
  · obtain ⟨d, hseq, hids, _, _⟩ := addFootnotesSeq_ok doc pIdx hrels hempty hp n
    rw [hseq]
    simp [Except.map, hids]
  · exact (List.pairwise_lt_range' 1 n).chain'
  · exact List.nodup_range' 1 n

theorem C3_witness :
    (addFootnotesSeq ⟨[⟨"Intro", []⟩], [], [], false⟩ 0 2).map
        (fun d => d.footnotes.map (fun e => e.id)) = Except.ok [1, 2] := by
  have h := C3_footnote_id_monotonicity ⟨[⟨"Intro", []⟩], [], [], false⟩ 0 2
    rfl rfl (by decide)
  simpa using h.2.1

theorem renumberFrom_map_id (base : Nat) (es : List NoteEntry) :
    (renumberFrom base es).map (fun e => e.id)
      = List.range' (base + 1) es.length := by
  induction es generalizing base with
  | nil => rfl
  | cons e rest ih =>
      simp [renumberFrom, ih (base + 1), List.range'_succ]

theorem renumberFrom_map_text (base : Nat) (es : List NoteEntry) :
    (renumberFrom base es).map (fun e => e.text)
      = es.map (fun e => e.text) := by
  induction es generalizing base with
  | nil => rfl
  | cons e rest ih => simp [renumberFrom, ih (base + 1)]

/-- Claim C5: `convertFootnotesToEndnotes` is all-or-nothing — on any
failure the persisted document is the input unchanged (no mixed state);
on success every footnote is remapped into the endnote numbering space
(consecutive ids after the current endnote maximum) preserving the
footnotes' relative order, every reference run is rewritten in place,
and the original footnote entries are removed. -/
theorem C5_convert_footnotes_all_or_nothing (doc : FootnoteDoc) :
    ((convert_footnotes_to_endnotes doc).2 ≠ Except.ok () →
      (convert_footnotes_to_endnotes doc).1 = doc)
    ∧ (footnoteRefsConsistent doc = false →
        (convert_footnotes_to_endnotes doc).1 = doc
        ∧ (convert_footnotes_to_endnotes doc).2
            = Except.error WordError.structuralInconsistency)
    ∧ (footnoteRefsConsistent doc = true →
        (convert_footnotes_to_endnotes doc).2 = Except.ok ()
        ∧ (convert_footnotes_to_endnotes doc).1.footnotes = []
        ∧ (convert_footnotes_to_endnotes doc).1.endnotes.map (fun e => e.text)
            = doc.endnotes.map (fun e => e.text)
              ++ doc.footnotes.map (fun e => e.text)
        ∧ (convert_footnotes_to_endnotes doc).1.endnotes.map (fun e => e.id)
            = doc.endnotes.map (fun e => e.id)
              ++ List.range' (maxNoteId doc.endnotes + 1) doc.footnotes.length
        ∧ (convert_footnotes_to_endnotes doc).1.paragraphs
            = doc.paragraphs.map (fun p =>
                { p with refs := p.refs.map (convertRef (fun i =>
                    maxNoteId doc.endnotes + 1
                      + (doc.footnotes.map (fun e => e.id)).indexOf i)) })) := by
  by_cases hc : footnoteRefsConsistent doc = true
  · refine ⟨?_, ?_, ?_⟩
    · intro hfail
      exact absurd (by simp [convert_footnotes_to_endnotes, hc]) hfail
    · intro hfalse
      rw [hc] at hfalse
      exact absurd hfalse (by simp)
    · intro _
      refine ⟨by simp [convert_footnotes_to_endnotes, hc],
        by simp [convert_footnotes_to_endnotes, hc], ?_, ?_, ?_⟩
      · simp [convert_footnotes_to_endnotes, hc, renumberFrom_map_text]
      · simp [convert_footnotes_to_endnotes, hc, renumberFrom_map_id]
      · simp [convert_footnotes_to_endnotes, hc, Nat.add_comm]
  · have hc' : footnoteRefsConsistent doc = false := by
      cases hcc : footnoteRefsConsistent doc
      · rfl
      · exact absurd hcc hc
    refine ⟨?_, ?_, ?_⟩
    · intro _
      simp [convert_footnotes_to_endnotes, hc']
    · intro _
      constructor <;> simp [convert_footnotes_to_endnotes, hc']
    · intro htrue
      exact absurd htrue hc

theorem C5_witness :
    (convert_footnotes_to_endnotes
        ⟨[⟨"P", [⟨NoteKind.footnote, 1⟩]⟩], [⟨1, "note"⟩], [], true⟩).2
      = Except.ok ()
    ∧ (convert_footnotes_to_endnotes
        ⟨[⟨"P", [⟨NoteKind.footnote, 1⟩]⟩], [⟨1, "note"⟩], [], true⟩).1.footnotes
      = []
    ∧ (convert_footnotes_to_endnotes
        ⟨[⟨"P", [⟨NoteKind.footnote, 5⟩]⟩], [⟨1, "note"⟩], [], true⟩).1
      = ⟨[⟨"P", [⟨NoteKind.footnote, 5⟩]⟩], [⟨1, "note"⟩], [], true⟩ := by
  have hgood := C5_convert_footnotes_all_or_nothing
    ⟨[⟨"P", [⟨NoteKind.footnote, 1⟩]⟩], [⟨1, "note"⟩], [], true⟩
  have hbad := C5_convert_footnotes_all_or_nothing
    ⟨[⟨"P", [⟨NoteKind.footnote, 5⟩]⟩], [⟨1, "note"⟩], [], true⟩
  exact ⟨(hgood.2.2 (by decide)).1, (hgood.2.2 (by decide)).2.1,
    (hbad.2.1 (by decide)).1⟩

theorem head?_dropWhile_false {α : Type} (p : α → Bool) (l : List α) (a : α)
    (h : (l.dropWhile p).head? = some a) : p a = false := by
  induction l with
  | nil => simp [List.dropWhile] at h
  | cons x xs ih =>
      by_cases hx : p x = true
      · rw [List.dropWhile_cons_of_pos hx] at h
        exact ih h
      · rw [List.dropWhile_cons_of_neg hx] at h
        have hxa : x = a := by simpa using h
        subst hxa
        exact Bool.eq_false_iff.mpr hx

/-- Claim C6: header-scoped replacement with a header text matching no
heading paragraph fails with `NotFound`; with the first matching
heading at index `i` of level `L`, it deletes every following block up
to but not including the next heading of level at most `L` (or to
document end), inserts the replacement content in the deleted span's
place, and the deleted span contains no heading of level at most `L`
while the kept suffix is empty or starts with one. -/
theorem C6_header_scoped_replacement (doc : List Para) (h : String)
    (newContent : List Para) :
    (findHeaderIndex doc h = none →
      replace_paragraph_block_below_header doc h newContent
        = Except.error WordError.notFound)
    ∧ (∀ i p L, findHeaderIndex doc h = some i → doc[i]? = some p →
        headingLevelOfStyle p.style = some L →
        replace_paragraph_block_below_header doc h newContent
          = Except.ok (doc.take (i + 1) ++ newContent
              ++ (doc.drop (i + 1)).dropWhile (fun q => !(isHeadingAtMost q L)))
        ∧ doc = doc.take (i + 1)
            ++ (doc.drop (i + 1)).takeWhile (fun q => !(isHeadingAtMost q L))
            ++ (doc.drop (i + 1)).dropWhile (fun q => !(isHeadingAtMost q L))
        ∧ (∀ q ∈ (doc.drop (i + 1)).takeWhile (fun q => !(isHeadingAtMost q L)),
            isHeadingAtMost q L = false)
        ∧ (∀ q, ((doc.drop (i + 1)).dropWhile
              (fun q => !(isHeadingAtMost q L))).head? = some q →
            isHeadingAtMost q L = true)) := by
  constructor
  · intro hnone
    simp [replace_paragraph_block_below_header, hnone]
  · intro i p L hfind hget hlvl
    refine ⟨?_, ?_, ?_, ?_⟩
    · simp [replace_paragraph_block_below_header, hfind, hget, hlvl]
    · rw [List.append_assoc, List.takeWhile_append_dropWhile,
        List.take_append_drop]
    · intro q hq
      have := List.mem_takeWhile_imp hq
      simpa using this
    · intro q hq
      have := head?_dropWhile_false (fun q => !(isHeadingAtMost q L))
        (doc.drop (i + 1)) q hq
      simpa using this

theorem C6_witness :
    replace_paragraph_block_below_header
        [⟨"Heading 1", "Overview"⟩, ⟨"Normal", "old1"⟩, ⟨"Heading 2", "Sub"⟩,
         ⟨"Normal", "old2"⟩, ⟨"Heading 1", "Next"⟩, ⟨"Normal", "tail"⟩]
        "Overview" [⟨"Normal", "new"⟩]
      = Except.ok
          [⟨"Heading 1", "Overview"⟩, ⟨"Normal", "new"⟩,
           ⟨"Heading 1", "Next"⟩, ⟨"Normal", "tail"⟩]
    ∧ replace_paragraph_block_below_header
        [⟨"Normal", "plain"⟩] "Missing" [⟨"Normal", "new"⟩]
      = Except.error WordError.notFound := by
  have hsome := C6_header_scoped_replacement
    [⟨"Heading 1", "Overview"⟩, ⟨"Normal", "old1"⟩, ⟨"Heading 2", "Sub"⟩,
     ⟨"Normal", "old2"⟩, ⟨"Heading 1", "Next"⟩, ⟨"Normal", "tail"⟩]
    "Overview" [⟨"Normal", "new"⟩]
  have hnone := C6_header_scoped_replacement [⟨"Normal", "plain"⟩]
    "Missing" [⟨"Normal", "new"⟩]
  refine ⟨?_, hnone.1 (by decide)⟩
  have h1 := (hsome.2 0 ⟨"Heading 1", "Overview"⟩ 1 (by decide) (by decide)
    (by decide)).1
  exact h1.trans (congrArg Except.ok (by decide))

end McpOffice
